import Mathlib

/-
Shallow embedding of the MylarMail replicated message store (Go source,
package main / mmdatabase).  The embedding follows the source file
function by function:

* `fnvHash`            — `hash` (FNV-1a 32-bit, hash/fnv New32a);
* `MMDatabase`         — the static per-node configuration fields
                         (`me`, `servers`, `nReplicas`; `nServers` is
                         set to `len(servers)` in `StartServer`);
* `MMDatabase.getCoordinatorIndex`, `MMDatabase.GetCoordinatorList`,
  `MMDatabase.getHandoffTarget` — the ring / hint-target helpers;
* `ReplicaPut`         — the replica acceptor, acting on one node's
                         mutable state (`NodeState`);
* `removeMessage`      — the swap-with-last-and-truncate removal;
* `CoordinatorPut`     — the coordinator fan-out, modelled over the
                         whole cluster (a list of `NodeState`) with a
                         reachability oracle `up` for the RPC `call`
                         and explicit fuel for the source's unbounded
                         loops.

Machine integers (`uint32` in `hash`, Go `int` indices) are modelled as
`Nat` with explicit `% 4294967296` where 32-bit wrap-around matters.
-/

/- `MessageID` is an empty `// TODO` struct in the source. -/
structure MessageID where
deriving DecidableEq, Inhabited

structure RequestID where
  clientID : Int
  seq : Int
deriving DecidableEq, Inhabited

/- `Message` as in the source: id, isHandoff, handoffDestination,
handoffUsername, data, collection. -/
structure Message where
  id : MessageID
  isHandoff : Bool
  handoffDestination : String
  handoffUsername : String
  data : String
  collection : String
deriving DecidableEq, Inhabited

/- `type Err string` with the two constants of the source. -/
abbrev Err := String

def OK : Err := r"OK"

def ErrWrongCoordinator : Err := r"ErrWrongCoordinator"

structure ReplicaPutArgs where
  username : String
  msg : Message
  handoff : Bool
deriving DecidableEq, Inhabited

structure ReplicaPutReply where
  err : Err
deriving DecidableEq, Inhabited

/- FNV-1a 32-bit over a byte sequence: h := 2166136261; per byte
h := (h XOR b) * 16777619 truncated to 32 bits. -/
def fnv32 (bytes : List Nat) : Nat :=
  bytes.foldl (fun h b => ((h ^^^ b) * 16777619) % 4294967296) 2166136261

/- The source's `hash(s string) uint32` hashes the UTF-8 bytes of `s`;
for the ASCII strings used below the code points are the bytes. -/
def fnvHash (s : String) : Nat :=
  fnv32 (s.data.map Char.toNat)

/- Static configuration of one node, as set up by `StartServer`:
`nServers = len(servers)`, and `nReplicas` defaults to 3. -/
structure MMDatabase where
  me : Nat
  servers : List String
  nReplicas : Nat

def MMDatabase.nServers (db : MMDatabase) : Nat :=
  db.servers.length

/- `int(hash(username) % uint32(db.nServers))`. -/
def MMDatabase.getCoordinatorIndex (db : MMDatabase) (username : String) : Nat :=
  fnvHash username % db.nServers

/- The two appending loops of the source produce the tail of `servers`
from `initialIndex` followed by its prefix before `initialIndex`. -/
def MMDatabase.GetCoordinatorList (db : MMDatabase) (username : String) : List String :=
  let initialIndex := db.getCoordinatorIndex username
  db.servers.drop initialIndex ++ db.servers.take initialIndex

/- The range check of `getHandoffTarget` (lines 225-242): compute
`lastReplica = firstReplica + nReplicas`, reduce it mod `nServers`
when it reaches `nServers` (setting `wrap`), then test the inclusive
bounds exactly as the source does. -/
def MMDatabase.inCheckedRange (db : MMDatabase) (username : String) (currentIndex : Nat) : Bool :=
  let firstReplica := db.getCoordinatorIndex username
  let lastRaw := firstReplica + db.nReplicas
  if lastRaw ≥ db.nServers then
    decide (currentIndex ≥ firstReplica) || decide (currentIndex ≤ lastRaw % db.nServers)
  else
    decide (firstReplica ≤ currentIndex) && decide (currentIndex ≤ lastRaw)

/- The unbounded scan at the end of `getHandoffTarget`: from position
`i`, return `i` if neither map holds it, else advance by one, reducing
mod `nServers` on reaching it, as the source writes `i++` followed by
`if i >= db.nServers { i = i % db.nServers }`.  The source loop has no
bound; `fuel` makes it total, and `fuel = nServers` visits every ring
position once, so a `none` result is exactly a run the source would
never exit. -/
def handoffScan (replicaLocations handoffTargets : Nat → Bool) (nServers : Nat) :
    Nat → Nat → Option Nat
  | 0, _ => none
  | fuel + 1, i =>
    if replicaLocations i = false ∧ handoffTargets i = false then some i
    else
      let i1 := i + 1
      let i2 := if i1 ≥ nServers then i1 % nServers else i1
      handoffScan replicaLocations handoffTargets nServers fuel i2

/- `getHandoffTarget`: `-1` when the range check fires, otherwise the
scan from `firstReplica`.  `some (-1)` / `some j` mirror the source's
returns; `none` marks the diverging scan. -/
def MMDatabase.getHandoffTarget (db : MMDatabase) (username : String) (currentIndex : Nat)
    (replicaLocations handoffTargets : Nat → Bool) : Option Int :=
  if db.inCheckedRange username currentIndex then some (-1)
  else
    (handoffScan replicaLocations handoffTargets db.nServers db.nServers
      (db.getCoordinatorIndex username)).map Int.ofNat

/- Mutable state of one node.  `handoffMessages` is the field of
`MMDatabase`; `store` models the Local Store.

Modelled from the spec: `LocalPut` is stubbed `// TODO` in the source;
the spec describes the Local Store as an opaque durable append-only map
of (username → messages), so `LocalPut` is modelled as appending the
(username, message) pair to `store`. -/
structure NodeState where
  store : List (String × Message)
  handoffMessages : List Message
deriving DecidableEq, Inhabited

/- `ReplicaPut` (lines 158-174), acting on the receiving node's state:
clear `isHandoff` when `args.Handoff`, do the local put, enqueue into
`handoffMessages` when the message still needs handing off, reply OK. -/
def ReplicaPut (node : NodeState) (args : ReplicaPutArgs) : NodeState × ReplicaPutReply :=
  let message := args.msg
  let message := if args.handoff then { message with isHandoff := false } else message
  let node := { node with store := node.store ++ [(args.username, message)] }
  let node :=
    if message.isHandoff then
      { node with handoffMessages := node.handoffMessages ++ [message] }
    else node
  (node, { err := OK })

/- `removeMessage` (lines 183-191): swap the element at `index` with
the last one, then truncate.  Both reads see the original slice values,
as in the source (the reads happen before the writes land). -/
def removeMessage (slice : List Message) (index : Nat) : List Message :=
  let maxIndex := slice.length - 1
  let lastElem := slice.getD maxIndex default
  let slice1 := slice.set maxIndex (slice.getD index default)
  let slice2 := slice1.set index lastElem
  slice2.take maxIndex

/- Map update `m[k] = true` for the Go `map[int]bool` locals. -/
def setMap (m : Nat → Bool) (k : Nat) : Nat → Bool :=
  fun j => if j = k then true else m j

/- In-place update of one node of the cluster. -/
def modifyNode : List NodeState → Nat → (NodeState → NodeState) → List NodeState
  | [], _, _ => []
  | n :: rest, 0, f => f n :: rest
  | n :: rest, j + 1, f => n :: modifyNode rest j f

/- The RPC `call(srv, "MMDatabase.ReplicaPut", args, reply)`: when the
address is reachable (`up`), the node registered at that address runs
`ReplicaPut` and the call returns true with its reply; otherwise the
call returns false and nothing happens. -/
def callReplicaPut (db : MMDatabase) (up : String → Bool) (nodes : List NodeState)
    (server : String) (args : ReplicaPutArgs) : Bool × ReplicaPutReply × List NodeState :=
  if up server then
    let j := db.servers.indexOf server
    if h : j < nodes.length then
      let res := ReplicaPut (nodes.get ⟨j, h⟩) args
      (true, res.2, nodes.set j res.1)
    else (false, { err := OK }, nodes)
  else (false, { err := OK }, nodes)

/- The coordinator-local bookkeeping of `CoordinatorPut`: the counter,
the two `map[int]bool` locals, the (mutated) message value, and the
cluster it acts on. -/
structure PutState where
  totalReplicas : Nat
  replicaLocations : Nat → Bool
  handoffTargets : Nat → Bool
  message : Message
  nodes : List NodeState

/- Body of the inner `for i, server := range ...` loop of
`CoordinatorPut` (lines 93-117) for one candidate: when position `i`
is unmarked and differs from `me`, consult `getHandoffTarget`; on a
non-negative target set the handoff fields (destination
`db.servers[i]`) and mark the target; send the RPC with
`args.Handoff = false`; on OK bump the counter and mark position `i`.
`none` propagates a diverging `getHandoffTarget` scan. -/
def putCandidate (db : MMDatabase) (up : String → Bool) (username : String)
    (i : Nat) (server : String) (st : PutState) : Option PutState :=
  if st.replicaLocations i = false ∧ i ≠ db.me then
    match db.getHandoffTarget username i st.replicaLocations st.handoffTargets with
    | none => none
    | some target =>
      let message :=
        if target = -1 then { st.message with isHandoff := false }
        else { st.message with
                 isHandoff := true,
                 handoffDestination := db.servers.getD i (r""),
                 handoffUsername := username }
      let handoffTargets2 :=
        if target = -1 then st.handoffTargets else setMap st.handoffTargets target.toNat
      let args : ReplicaPutArgs := { username := username, msg := message, handoff := false }
      let res := callReplicaPut db up st.nodes server args
      if res.1 = true ∧ res.2.1.err = OK then
        some { totalReplicas := st.totalReplicas + 1,
               replicaLocations := setMap st.replicaLocations i,
               handoffTargets := handoffTargets2,
               message := message,
               nodes := res.2.2 }
      else
        some { st with message := message, handoffTargets := handoffTargets2, nodes := res.2.2 }
  else some st

/- One pass of the inner loop over the enumerated coordinator list;
after each candidate the source checks `totalReplicas >= nReplicas`
and breaks. -/
def runSweep (db : MMDatabase) (up : String → Bool) (username : String) :
    List (Nat × String) → PutState → Option PutState
  | [], st => some st
  | (i, server) :: rest, st =>
    match putCandidate db up username i server st with
    | none => none
    | some st2 =>
      if st2.totalReplicas ≥ db.nReplicas then some st2
      else runSweep db up username rest st2

/- The outer `for totalReplicas < db.nReplicas-1` loop, with fuel for
the source's missing termination bound (`none` = the source would
still be looping).  `db.nReplicas - 1` is Nat subtraction, matching
the Go int for every `nReplicas ≥ 1`, and for `nReplicas = 0` the Go
comparison `0 < -1` is false just as `0 < 0` is. -/
def runOuter (db : MMDatabase) (up : String → Bool) (username : String) :
    Nat → PutState → Option PutState
  | 0, st => if st.totalReplicas < db.nReplicas - 1 then none else some st
  | fuel + 1, st =>
    if st.totalReplicas < db.nReplicas - 1 then
      match runSweep db up username ((db.GetCoordinatorList username).enum) st with
      | none => none
      | some st2 => runOuter db up username fuel st2
    else some st

/- `CoordinatorPut` (lines 80-134): the wrong-coordinator check, the
replication loop, then the local put at `me` and `OK`. -/
def CoordinatorPut (db : MMDatabase) (nodes : List NodeState) (up : String → Bool)
    (fuel : Nat) (username : String) (id : RequestID) (message : Message) :
    Option (Err × List NodeState) :=
  if db.getCoordinatorIndex username ≠ db.me ∧ message.isHandoff = false then
    some (ErrWrongCoordinator, nodes)
  else
    (runOuter db up username fuel
        { totalReplicas := 0,
          replicaLocations := fun _ => false,
          handoffTargets := fun _ => false,
          message := message,
          nodes := nodes }).map (fun st =>
      (OK, modifyNode st.nodes db.me
        (fun ns => { ns with store := ns.store ++ [(username, st.message)] })))

/- Whether a node's Local Store holds a copy of the message identified
by its payload (all `MessageID`s are equal, the source leaves the type
empty). -/
def holdsMsg (ns : NodeState) (username data : String) : Bool :=
  ns.store.any (fun e => e.1 == username && e.2.data == data)

/- Number of distinct node indices whose Local Store holds the
message. -/
def countHolders (nodes : List NodeState) (username data : String) : Nat :=
  (nodes.filter (fun ns => holdsMsg ns username data)).length

/- Concrete instances used in counterexample runs. -/

def serversA : List String := [ r"s0", r"s1", r"s2", r"s3", r"s4" ]

def erin : String := r"erin"

def dave : String := r"dave"

/- fnvHash erin % 5 = 0, so node 0 coordinates for erin. -/
def dbErin : MMDatabase :=
  { me := 0, servers := serversA, nReplicas := 3 }

/- fnvHash dave % 5 = 1, so node 1 coordinates for dave. -/
def dbDave : MMDatabase :=
  { me := 1, servers := serversA, nReplicas := 3 }

def nodes0 : List NodeState :=
  List.replicate 5 { store := [], handoffMessages := [] }

def msg0 : Message :=
  { id := {}, isHandoff := false, handoffDestination := r"", handoffUsername := r"",
    data := r"hello", collection := r"inbox" }

def reqId0 : RequestID := { clientID := 7, seq := 1 }

/- Reachability oracle with s3 and s4 unreachable. -/
def upA : String → Bool :=
  fun a => !(a == r"s3" || a == r"s4")

/- Reachability oracle with s2 and s3 unreachable. -/
def upB : String → Bool :=
  fun a => !(a == r"s2" || a == r"s3")

/- The everywhere-false map (empty `map[int]bool`). -/
def emptyMap : Nat → Bool := fun _ => false

def nodeEmpty : NodeState := { store := [], handoffMessages := [] }

/- A hint-drain delivery: a message still flagged as a handoff arriving
with `args.Handoff = true`. -/
def argsHint : ReplicaPutArgs :=
  { username := erin,
    msg := { msg0 with isHandoff := true, handoffDestination := r"s0", handoffUsername := erin },
    handoff := true }

/- A small concrete hint queue for witnesses. -/
def msgsEx : List Message :=
  [ msg0, { msg0 with data := r"a" }, { msg0 with data := r"b" } ]

/- Helper lemmas about `removeMessage` (not tied to any one claim). -/

theorem removeMessage_cons (a : Message) (s : List Message) (k : Nat) (hs : s ≠ []) :
    removeMessage (a :: s) (k + 1) = a :: removeMessage s k := by
  obtain ⟨x, t, rfl⟩ : ∃ x t, s = x :: t := by
    cases s with
    | nil => exact absurd rfl hs
    | cons x t => exact ⟨x, t, rfl⟩
  simp [removeMessage]

theorem removeMessage_zero (b c : Message) (B : List Message) :
    removeMessage (b :: (B ++ [c])) 0 = c :: B := by
  have hlen : (b :: (B ++ [c])).length - 1 = B.length + 1 := by simp
  have hlast : (b :: (B ++ [c])).getD (B.length + 1) default = c := by
    have h1 : (b :: (B ++ [c])).getD (B.length + 1) default =
        (B ++ [c]).getD B.length default := rfl
    rw [h1, List.getD_eq_getElem?_getD, List.getElem?_append_right (le_refl _)]
    simp
  simp only [removeMessage, hlen, hlast]
  have hset : (B ++ [c]).set B.length ((b :: (B ++ [c])).getD 0 default) =
      B ++ [(b :: (B ++ [c])).getD 0 default] := by
    rw [List.set_append]
    simp
  simp only [List.set_cons_succ, hset, List.set_cons_zero, List.take_succ_cons]
  rw [List.take_left]

theorem removeMessage_last (T : List Message) (c : Message) :
    removeMessage (T ++ [c]) T.length = T := by
  induction T with
  | nil => rfl
  | cons a T ih =>
    have h1 : (a :: T) ++ [c] = a :: (T ++ [c]) := rfl
    have h2 : (a :: T).length = T.length + 1 := rfl
    rw [h1, h2, removeMessage_cons a (T ++ [c]) T.length (by simp), ih]

theorem removeMessage_shape (A : List Message) (b : Message) (B : List Message) (c : Message) :
    removeMessage (A ++ b :: (B ++ [c])) A.length = A ++ c :: B := by
  induction A with
  | nil => simpa using removeMessage_zero b c B
  | cons a A ih =>
    have h1 : (a :: A) ++ b :: (B ++ [c]) = a :: (A ++ b :: (B ++ [c])) := rfl
    have h2 : (a :: A).length = A.length + 1 := rfl
    rw [h1, h2, removeMessage_cons a (A ++ b :: (B ++ [c])) A.length (by simp), ih]
    rfl

theorem eraseIdx_at_prefix (A : List Message) (b : Message) (X : List Message) :
    (A ++ b :: X).eraseIdx A.length = A ++ X := by
  induction A with
  | nil => rfl
  | cons a A ih =>
    have h1 : (a :: A) ++ b :: X = a :: (A ++ b :: X) := rfl
    have h2 : (a :: A).length = A.length + 1 := rfl
    rw [h1, h2]
    show a :: (A ++ b :: X).eraseIdx A.length = (a :: A) ++ X
    rw [ih]
    rfl

/-- C2: at the concrete instance `dbErin` (5 servers, `nReplicas = 3`,
`coordinatorIndex erin = 0`) the candidate index 3 is outside the
primary set `[0, 3)`, yet `getHandoffTarget` returns `-1`: the source's
inclusive range check is off by one, so the claimed iff fails on the
code (the spec itself records this as a source bug). -/
theorem getHandoffTarget_neg_one_outside_primary_set :
    dbErin.getCoordinatorIndex erin = 0 ∧
    ¬ (dbErin.getCoordinatorIndex erin ≤ 3 ∧
        3 < dbErin.getCoordinatorIndex erin + dbErin.nReplicas) ∧
    dbErin.getHandoffTarget erin 3 emptyMap emptyMap = some (-1) := by
  decide

/-- C1: counterexample run.  5 servers, `nReplicas = 3`, coordinator
node 1 for `dave`, addresses s3 and s4 unreachable.  `CoordinatorPut`
returns OK, yet only 2 distinct nodes hold the message: the loop's
position index is compared with the absolute index `me`, so the
coordinator both skips a healthy peer (s2, at position 1) and counts an
RPC to itself (position 0 = s1) as a remote replica. -/
theorem coordinatorPut_ok_with_two_holders :
    (CoordinatorPut dbDave nodes0 upA 1 dave reqId0 msg0).map
        (fun p => (p.1, countHolders p.2 dave (msg0.data))) = some (OK, 2) ∧
    2 < dbDave.nReplicas := by
  decide

/-- C7: counterexample run.  5 servers, `nReplicas = 3`, coordinator
node 0 for `erin`, addresses s2 and s3 unreachable.  The run returns
OK and node 4's Hint Queue ends up holding a hint whose
`handoffDestination` is s4 — node 4's own address — because
`CoordinatorPut` writes `db.servers[i]` (the candidate itself) into
the destination field. -/
theorem coordinatorPut_enqueues_self_addressed_hint :
    (CoordinatorPut dbErin nodes0 upB 1 erin reqId0 msg0).map
        (fun p => (p.1, (p.2.getD 4 default).handoffMessages.any
            (fun m => m.isHandoff && m.handoffDestination == serversA.getD 4 (r"")))) =
      some (OK, true) := by
  decide

/-- C3: counterexample run (same scenario as C7's).  At candidate
position 4 the chosen handoff target is node 0 (`getHandoffTarget`
returns 0, and node 0 is what gets marked hint-assigned), but the
message stored at node 4 carries `handoffDestination = servers[4]`,
the candidate's own address, not `servers[0]`: the code writes
`db.servers[i]` instead of the address of target `j`. -/
theorem coordinatorPut_handoffDestination_is_candidate_not_target :
    dbErin.getHandoffTarget erin 4 (fun j => j == 1) emptyMap = some ((0 : Int)) ∧
    (CoordinatorPut dbErin nodes0 upB 1 erin reqId0 msg0).map
        (fun p => (p.2.getD 4 default).store.any
            (fun e => e.2.isHandoff && e.2.handoffUsername == erin &&
                      e.2.handoffDestination == serversA.getD 4 (r""))) = some true ∧
    serversA.getD 4 (r"") ≠ serversA.getD 0 (r"") := by
  decide

/-- C4: `CoordinatorPut` returns `ErrWrongCoordinator` — and then with
the cluster state unchanged — exactly when the receiving node's index
differs from `coordinatorIndex(username)` and the message is not
already flagged as a handoff; a handoff-flagged message bypasses the
check, so the call can then only produce OK or keep looping. -/
theorem coordinatorPut_wrongCoordinator_iff (db : MMDatabase) (nodes : List NodeState)
    (up : String → Bool) (fuel : Nat) (username : String) (id : RequestID)
    (message : Message) (nodes2 : List NodeState) :
    CoordinatorPut db nodes up fuel username id message = some (ErrWrongCoordinator, nodes2) ↔
      (db.getCoordinatorIndex username ≠ db.me ∧ message.isHandoff = false ∧
        nodes2 = nodes) := by
  unfold CoordinatorPut
  by_cases hc : db.getCoordinatorIndex username ≠ db.me ∧ message.isHandoff = false
  · rw [if_pos hc]
    constructor
    · intro h
      simp only [Option.some.injEq, Prod.mk.injEq] at h
      exact ⟨hc.1, hc.2, h.2.symm⟩
    · rintro ⟨-, -, hn⟩
      rw [hn]
  · rw [if_neg hc]
    constructor
    · intro h
      rcases Option.map_eq_some'.mp h with ⟨st, -, hf⟩
      have hOK : OK = ErrWrongCoordinator := congrArg Prod.fst hf
      exact absurd hOK (by decide)
    · rintro ⟨h1, h2, -⟩
      exact absurd ⟨h1, h2⟩ hc

/-- C6: `ReplicaPut` always replies OK (in particular never
`ErrWrongCoordinator`); the incoming message has its `isHandoff` flag
cleared exactly when `args.handoff` is set, the resulting message is
appended to the Local Store, and it is enqueued into the Hint Queue
exactly when its `isHandoff` flag is still true after that step. -/
theorem replicaPut_clears_applies_enqueues (node : NodeState) (args : ReplicaPutArgs) :
    (ReplicaPut node args).2.err = OK ∧
    (ReplicaPut node args).2.err ≠ ErrWrongCoordinator ∧
    (ReplicaPut node args).1.store =
      node.store ++ [(args.username,
        if args.handoff then { args.msg with isHandoff := false } else args.msg)] ∧
    (ReplicaPut node args).1.handoffMessages =
      (if (if args.handoff then { args.msg with isHandoff := false } else args.msg).isHandoff then
        node.handoffMessages ++
          [if args.handoff then { args.msg with isHandoff := false } else args.msg]
      else node.handoffMessages) := by
  have h1 : (ReplicaPut node args).2.err = OK := rfl
  refine ⟨h1, by rw [h1]; decide, ?_, ?_⟩
  · rcases args with ⟨u, m, h⟩
    cases h <;> cases hm : m.isHandoff <;> simp [ReplicaPut, hm]
  · rcases args with ⟨u, m, h⟩
    cases h <;> cases hm : m.isHandoff <;> simp [ReplicaPut, hm]

/-- C10: a `ReplicaPut` call with `args.handoff = true` leaves the
receiving node's Hint Queue unchanged, whatever the incoming message's
own `isHandoff` flag was. -/
theorem replicaPut_handoff_preserves_queue (node : NodeState) (args : ReplicaPutArgs)
    (h : args.handoff = true) :
    (ReplicaPut node args).1.handoffMessages = node.handoffMessages := by
  rcases args with ⟨u, m, hb⟩
  subst h
  simp [ReplicaPut]

/-- C10 witness: a hint-flagged message delivered with
`args.handoff = true` is not re-enqueued at the receiving node. -/
theorem replicaPut_handoff_preserves_queue_witness :
    argsHint.handoff = true ∧
    (ReplicaPut nodeEmpty argsHint).1.handoffMessages = nodeEmpty.handoffMessages :=
  ⟨rfl, replicaPut_handoff_preserves_queue nodeEmpty argsHint rfl⟩

/-- C9: for a non-empty slice and a valid index k, `removeMessage`
returns a slice one shorter whose multiset of elements is that of the
original slice with the element at position k removed (the
swap-with-last-and-truncate removal preserves membership). -/
theorem removeMessage_removes_index (s : List Message) (k : Nat)
    (h0 : s ≠ []) (hk : k < s.length) :
    (removeMessage s k).length = s.length - 1 ∧
    ((removeMessage s k : List Message) : Multiset Message) =
      ((s.eraseIdx k : List Message) : Multiset Message) := by
  have hperm : (removeMessage s k).Perm (s.eraseIdx k) := by
    rcases Nat.lt_or_ge k (s.length - 1) with hlt | hge
    · have hk1 : k + 1 < s.length := by omega
      have hsplit : s = s.take k ++ s.drop k := (List.take_append_drop k s).symm
      have hdrop : s.drop k = s[k] :: s.drop (k + 1) := List.drop_eq_getElem_cons hk
      have hlendrop : (s.drop (k + 1)).length = s.length - (k + 1) := List.length_drop _ _
      rcases List.eq_nil_or_concat (s.drop (k + 1)) with hnil | ⟨B, c, hBc⟩
      · rw [hnil] at hlendrop
        simp at hlendrop
        omega
      · have hBc' : s.drop (k + 1) = B ++ [c] := by rw [hBc, List.concat_eq_append]
        have hs : s = s.take k ++ s[k] :: (B ++ [c]) := by
          calc s = s.take k ++ s.drop k := hsplit
            _ = s.take k ++ s[k] :: (B ++ [c]) := by rw [hdrop, hBc']
        have hlenA : (s.take k).length = k := by
          rw [List.length_take]
          omega
        have h1 : removeMessage (s.take k ++ s[k] :: (B ++ [c])) ((s.take k).length) =
            s.take k ++ c :: B := removeMessage_shape _ _ _ _
        rw [← hs, hlenA] at h1
        have h2 : (s.take k ++ s[k] :: (B ++ [c])).eraseIdx ((s.take k).length) =
            s.take k ++ (B ++ [c]) := eraseIdx_at_prefix _ _ _
        rw [← hs, hlenA] at h2
        rw [h1, h2]
        exact List.Perm.append_left _ ((List.perm_append_singleton c B).symm)
    · have hk' : k = s.length - 1 := by omega
      rcases List.eq_nil_or_concat s with hnil | ⟨T, c, hTc⟩
      · exact absurd hnil h0
      · have hTc' : s = T ++ [c] := by rw [hTc, List.concat_eq_append]
        have hlenT : T.length = s.length - 1 := by rw [hTc']; simp
        have h1 : removeMessage s k = T := by
          rw [hTc', hk', ← hlenT]
          exact removeMessage_last T c
        have h2 : s.eraseIdx k = T := by
          rw [hTc', hk', ← hlenT]
          have h3 := eraseIdx_at_prefix T c []
          simpa using h3
        rw [h1, h2]
  refine ⟨?_, Multiset.coe_eq_coe.mpr hperm⟩
  rw [hperm.length_eq, List.length_eraseIdx]
  simp [hk]

/-- C9 witness: the theorem applied to a concrete three-element queue
at index 1. -/
theorem removeMessage_removes_index_witness :
    msgsEx ≠ [] ∧ 1 < msgsEx.length ∧
    ((removeMessage msgsEx 1).length = msgsEx.length - 1 ∧
      ((removeMessage msgsEx 1 : List Message) : Multiset Message) =
        ((msgsEx.eraseIdx 1 : List Message) : Multiset Message)) :=
  ⟨by decide, by decide, removeMessage_removes_index msgsEx 1 (by decide) (by decide)⟩

/-- C5: the coordinator list for a username is the rotation of the
server list starting at `coordinatorIndex(username)`: its k-th element
is `servers[(coordinatorIndex + k) % nServers]`, it is a permutation of
the full server list, and it depends only on the username and the
static server list. -/
theorem getCoordinatorList_rotation (db : MMDatabase) (u : String) :
    (∀ k, k < db.nServers →
      (db.GetCoordinatorList u)[k]? =
        db.servers[(db.getCoordinatorIndex u + k) % db.nServers]?) ∧
    (db.GetCoordinatorList u).Perm db.servers ∧
    (∀ db2 : MMDatabase, db2.servers = db.servers →
      db2.GetCoordinatorList u = db.GetCoordinatorList u) := by
  refine ⟨?_, ?_, ?_⟩
  · intro k hk
    have hn : 0 < db.nServers := lt_of_le_of_lt (Nat.zero_le k) hk
    have hci : db.getCoordinatorIndex u < db.nServers := Nat.mod_lt _ hn
    have hnen : db.nServers = db.servers.length := rfl
    unfold MMDatabase.GetCoordinatorList
    rw [List.getElem?_append, List.length_drop]
    by_cases hcase : k < db.servers.length - db.getCoordinatorIndex u
    · rw [if_pos hcase, List.getElem?_drop]
      have harith : (db.getCoordinatorIndex u + k) % db.nServers =
          db.getCoordinatorIndex u + k := Nat.mod_eq_of_lt (by omega)
      rw [harith]
    · rw [if_neg hcase, List.getElem?_take,
        if_pos (show k - (db.servers.length - db.getCoordinatorIndex u) <
          db.getCoordinatorIndex u by omega)]
      have h1 : db.getCoordinatorIndex u + k =
          (k - (db.servers.length - db.getCoordinatorIndex u)) + db.nServers := by omega
      have harith : (db.getCoordinatorIndex u + k) % db.nServers =
          k - (db.servers.length - db.getCoordinatorIndex u) := by
        rw [h1, Nat.add_mod_right]
        exact Nat.mod_eq_of_lt (by omega)
      rw [harith]
  · have h2 : db.servers.take (db.getCoordinatorIndex u) ++
        db.servers.drop (db.getCoordinatorIndex u) = db.servers :=
      List.take_append_drop _ _
    unfold MMDatabase.GetCoordinatorList
    conv_rhs => rw [← h2]
    exact List.perm_append_comm
  · intro db2 h
    unfold MMDatabase.GetCoordinatorList MMDatabase.getCoordinatorIndex MMDatabase.nServers
    rw [h]

/-- C5 witness: the rotation law and permutation at a concrete
configuration and index. -/
theorem getCoordinatorList_rotation_witness :
    2 < dbErin.nServers ∧
    ((dbErin.GetCoordinatorList erin)[2]? =
      dbErin.servers[(dbErin.getCoordinatorIndex erin + 2) % dbErin.nServers]?) ∧
    (dbErin.GetCoordinatorList erin).Perm dbErin.servers :=
  ⟨by decide, (getCoordinatorList_rotation dbErin erin).1 2 (by decide),
    (getCoordinatorList_rotation dbErin erin).2.1⟩

/- Correctness of the ring scan of `getHandoffTarget`: with some free
position on the ring, the scan started inside `[0, nServers)` finds the
first free position, in scan order, within its fuel. -/
theorem handoffScan_spec (rep hts : Nat → Bool) (n : Nat) :
    ∀ fuel i, i < n →
      (∃ k, k < fuel ∧ rep ((i + k) % n) = false ∧ hts ((i + k) % n) = false) →
      ∃ k, k < fuel ∧ rep ((i + k) % n) = false ∧ hts ((i + k) % n) = false ∧
        (∀ k2, k2 < k → ¬(rep ((i + k2) % n) = false ∧ hts ((i + k2) % n) = false)) ∧
        handoffScan rep hts n fuel i = some ((i + k) % n) := by
  intro fuel
  induction fuel with
  | zero =>
    rintro i hi ⟨k, hk, -⟩
    exact absurd hk (Nat.not_lt_zero k)
  | succ fuel ih =>
    intro i hi hex
    have hn : 0 < n := lt_of_le_of_lt (Nat.zero_le i) hi
    by_cases hfree : rep i = false ∧ hts i = false
    · have h0 : (i + 0) % n = i := by rw [Nat.add_zero, Nat.mod_eq_of_lt hi]
      refine ⟨0, Nat.succ_pos fuel, ?_, ?_, ?_, ?_⟩
      · rw [h0]; exact hfree.1
      · rw [h0]; exact hfree.2
      · intro k2 hk2; exact absurd hk2 (Nat.not_lt_zero k2)
      · show handoffScan rep hts n (fuel + 1) i = some ((i + 0) % n)
        rw [h0]
        simp [handoffScan, hfree]
    · have hj : (if i + 1 ≥ n then (i + 1) % n else i + 1) = (i + 1) % n := by
        by_cases hge : i + 1 ≥ n
        · rw [if_pos hge]
        · rw [if_neg hge, Nat.mod_eq_of_lt (by omega)]
      have hstep : handoffScan rep hts n (fuel + 1) i =
          handoffScan rep hts n fuel ((i + 1) % n) := by
        simp only [handoffScan]
        rw [if_neg hfree, hj]
      have hjlt : (i + 1) % n < n := Nat.mod_lt _ hn
      have hshift : ∀ m, ((i + 1) % n + m) % n = (i + (m + 1)) % n := by
        intro m
        rw [Nat.mod_add_mod]
        congr 1
        omega
      obtain ⟨k, hkf, hr, hh⟩ := hex
      have hk0 : k ≠ 0 := by
        rintro rfl
        rw [Nat.add_zero, Nat.mod_eq_of_lt hi] at hr hh
        exact hfree ⟨hr, hh⟩
      obtain ⟨k', rfl⟩ : ∃ k', k = k' + 1 := ⟨k - 1, by omega⟩
      have hex2 : ∃ m, m < fuel ∧ rep (((i + 1) % n + m) % n) = false ∧
          hts (((i + 1) % n + m) % n) = false := by
        refine ⟨k', by omega, ?_, ?_⟩
        · rw [hshift k']; exact hr
        · rw [hshift k']; exact hh
      obtain ⟨m, hmf, hmr, hmh, hmmin, hmscan⟩ := ih ((i + 1) % n) hjlt hex2
      refine ⟨m + 1, by omega, ?_, ?_, ?_, ?_⟩
      · rw [← hshift m]; exact hmr
      · rw [← hshift m]; exact hmh
      · intro k2 hk2
        cases k2 with
        | zero =>
          intro hcon
          rw [Nat.add_zero, Nat.mod_eq_of_lt hi] at hcon
          exact hfree hcon
        | succ k3 =>
          intro hcon
          rw [← hshift k3] at hcon
          exact hmmin k3 (by omega) hcon
      · rw [hstep, hmscan, hshift m]

/-- C8 (amended): for a candidate index that falls outside the
inclusive range actually checked by the source (the primary set plus
its one-past-the-end boundary position), if some ring index is in
neither map then the scan of `getHandoffTarget` terminates and returns
the first index, starting at `coordinatorIndex(u)` and advancing by 1
modulo `nServers`, that is in neither `replicated` nor `assigned`. -/
theorem getHandoffTarget_scan_first_free (db : MMDatabase) (u : String) (i : Nat)
    (rep hts : Nat → Bool)
    (hout : db.inCheckedRange u i = false)
    (hfree : ∃ j, j < db.nServers ∧ rep j = false ∧ hts j = false) :
    ∃ k, k < db.nServers ∧
      rep ((db.getCoordinatorIndex u + k) % db.nServers) = false ∧
      hts ((db.getCoordinatorIndex u + k) % db.nServers) = false ∧
      (∀ k2, k2 < k →
        ¬(rep ((db.getCoordinatorIndex u + k2) % db.nServers) = false ∧
          hts ((db.getCoordinatorIndex u + k2) % db.nServers) = false)) ∧
      db.getHandoffTarget u i rep hts =
        some (Int.ofNat ((db.getCoordinatorIndex u + k) % db.nServers)) := by
  obtain ⟨j, hjn, hjr, hjh⟩ := hfree
  have hn : 0 < db.nServers := lt_of_le_of_lt (Nat.zero_le j) hjn
  have hfirst : db.getCoordinatorIndex u < db.nServers := Nat.mod_lt _ hn
  have hex : ∃ k, k < db.nServers ∧
      rep ((db.getCoordinatorIndex u + k) % db.nServers) = false ∧
      hts ((db.getCoordinatorIndex u + k) % db.nServers) = false := by
    by_cases hge : db.getCoordinatorIndex u ≤ j
    · refine ⟨j - db.getCoordinatorIndex u, by omega, ?_, ?_⟩
      · rw [show db.getCoordinatorIndex u + (j - db.getCoordinatorIndex u) = j by omega,
          Nat.mod_eq_of_lt hjn]
        exact hjr
      · rw [show db.getCoordinatorIndex u + (j - db.getCoordinatorIndex u) = j by omega,
          Nat.mod_eq_of_lt hjn]
        exact hjh
    · refine ⟨j + db.nServers - db.getCoordinatorIndex u, by omega, ?_, ?_⟩
      · rw [show db.getCoordinatorIndex u + (j + db.nServers - db.getCoordinatorIndex u) =
            j + db.nServers by omega, Nat.add_mod_right, Nat.mod_eq_of_lt hjn]
        exact hjr
      · rw [show db.getCoordinatorIndex u + (j + db.nServers - db.getCoordinatorIndex u) =
            j + db.nServers by omega, Nat.add_mod_right, Nat.mod_eq_of_lt hjn]
        exact hjh
  obtain ⟨k, hk, hkr, hkh, hkmin, hkscan⟩ :=
    handoffScan_spec rep hts db.nServers db.nServers (db.getCoordinatorIndex u) hfirst hex
  refine ⟨k, hk, hkr, hkh, hkmin, ?_⟩
  unfold MMDatabase.getHandoffTarget
  rw [hout]
  simp only [Bool.false_eq_true, if_false]
  rw [hkscan]
  rfl

/-- C8 counterexample: at `dbErin` with both maps empty, the candidate
index 3 lies outside the primary set `[0, 3)` and every ring index is
free, so the claim as stated predicts the scan result — the first free
index from `coordinatorIndex erin = 0`, namely 0 — yet the source's
range check (off by one) answers `-1` instead. -/
theorem getHandoffTarget_neg_one_despite_free_target :
    ¬ (dbErin.getCoordinatorIndex erin ≤ 3 ∧
        3 < dbErin.getCoordinatorIndex erin + dbErin.nReplicas) ∧
    dbErin.getHandoffTarget erin 3 emptyMap emptyMap = some (-1) ∧
    some (-1 : Int) ≠ some (Int.ofNat (dbErin.getCoordinatorIndex erin)) :=
  ⟨by decide, by decide, by decide⟩

/-- C8 witness: the amended theorem applied at `dbErin`, candidate 4,
both maps empty. -/
theorem getHandoffTarget_scan_first_free_witness :
    dbErin.inCheckedRange erin 4 = false ∧
    (∃ k, k < dbErin.nServers ∧
      emptyMap ((dbErin.getCoordinatorIndex erin + k) % dbErin.nServers) = false ∧
      emptyMap ((dbErin.getCoordinatorIndex erin + k) % dbErin.nServers) = false ∧
      (∀ k2, k2 < k →
        ¬(emptyMap ((dbErin.getCoordinatorIndex erin + k2) % dbErin.nServers) = false ∧
          emptyMap ((dbErin.getCoordinatorIndex erin + k2) % dbErin.nServers) = false)) ∧
      dbErin.getHandoffTarget erin 4 emptyMap emptyMap =
        some (Int.ofNat ((dbErin.getCoordinatorIndex erin + k) % dbErin.nServers))) :=
  ⟨by decide, getHandoffTarget_scan_first_free dbErin erin 4 emptyMap emptyMap (by decide)
      ⟨0, by decide⟩⟩
